import Mathlib

/-!
Shallow embedding of `BeatPrints/lyrics.py` (module `lyrics`): the lyrics
acquisition chain (`get_lyrics`, `check_instrumental`, `get_manual_lyrics`)
and the quatrain selector (`select_lines`).

Modelling conventions:
* Python strings are `List Char`; splitting, stripping and joining are
  re-implemented below with the exact semantics of the Python operations
  used by the source (`str.split`, `str.strip`, `"\n".join`, `re.match`).
* Character classes (`\d`, `str.isspace`, `str.lower`) are modelled on the
  ASCII range; the Python originals also cover further Unicode code points,
  which none of the verified properties depend on.
* The external LRClib API is a capability record (`LrcLibAPI` below): a pure
  search function and a pure lyrics-by-id lookup, as the specification
  describes them (an ordered result list, possibly empty, and a
  `plain_lyrics` field that may be absent).
* Interactive input is a finite list of input lines; terminal printing is
  ignored (it does not affect any return value).
* A function that can terminate with an uncaught Python exception returns
  an `Option`, with `none` for the raising outcome.
-/

/-- Python `str.isspace` on the ASCII whitespace characters
(space, tab, newline, carriage return, vertical tab, form feed).
This is the character class removed by `str.strip()`. -/
def pyIsSpace (c : Char) : Bool :=
  c == ' ' || c == '\t' || c == '\n' || c == '\r' || c == '\x0b' || c == '\x0c'

/-- Python `str.strip()`: remove leading and trailing whitespace. -/
def pyStrip (cs : List Char) : List Char :=
  ((cs.dropWhile pyIsSpace).reverse.dropWhile pyIsSpace).reverse

/-- Python `str.split(sep)` for a one-character separator: split at every
occurrence of `sep`, keeping empty segments (`"".split(sep) = [""]`). -/
def splitOnChar (sep : Char) : List Char → List (List Char)
  | [] => [[]]
  | c :: rest =>
    if c = sep then [] :: splitOnChar sep rest
    else
      match splitOnChar sep rest with
      | [] => [[c]]
      | h :: t => (c :: h) :: t

/-- Value of a list of decimal digit characters, most significant first. -/
def digitsVal (cs : List Char) : Nat :=
  cs.foldl (fun n c => 10 * n + (c.toNat - ('0').toNat)) 0

/-- Python `int(s)` on the argument shapes produced inside `select_lines`:
surrounding whitespace is stripped, then a nonempty all-digit string parses
to its value; anything else raises `ValueError`, modelled as `none`.
(Signs and Unicode digits never occur there because of the format check.) -/
def pyInt? (cs : List Char) : Option Nat :=
  if !(pyStrip cs).isEmpty && (pyStrip cs).all Char.isDigit
  then some (digitsVal (pyStrip cs)) else none

/-- Python `re.match(r"^\d+-\d+$", s)` viewed as a Boolean: a nonempty digit
run, one hyphen, a nonempty digit run, then the end of the string — where,
per Python semantics without `re.MULTILINE`, `$` also matches just before a
single trailing newline.  `\d` is modelled as the ASCII digits. -/
def matchStartEnd (cs : List Char) : Bool :=
  match cs.dropWhile Char.isDigit with
  | '-' :: rest2 =>
      !(cs.takeWhile Char.isDigit).isEmpty &&
      !(rest2.takeWhile Char.isDigit).isEmpty &&
      ((rest2.dropWhile Char.isDigit).isEmpty ||
        rest2.dropWhile Char.isDigit == ['\n'])
  | _ => false

/-- The format the specification text itself describes for a selection:
"two integers separated by a single hyphen, no surrounding whitespace".
Stated from the words of the spec, to be compared with `matchStartEnd`,
which embeds the Python regex test of the source. -/
def specStrictFormat (cs : List Char) : Bool :=
  match cs.dropWhile Char.isDigit with
  | '-' :: rest2 =>
      !(cs.takeWhile Char.isDigit).isEmpty &&
      !rest2.isEmpty && rest2.all Char.isDigit
  | _ => false

/-- The list comprehension `[int(num) for num in selection.split("-")]`:
convert every piece, aborting with `ValueError` (`none`) at the first piece
`int` rejects. -/
def pyIntList? : List (List Char) → Option (List Nat)
  | [] => some []
  | s :: rest =>
    match pyInt? s, pyIntList? rest with
    | some v, some vs => some (v :: vs)
    | _, _ => none

/-- The outcomes with which `select_lines` can abort: the three error classes
of `BeatPrints.errors` it raises itself, and `valueError` for the
`ValueError` that `int(...)` would raise (the final `except` clause of the
source re-raises every exception unchanged, so aborts surface verbatim).
The `valueError` outcome is proved unreachable below. -/
inductive SelectError where
  | invalidFormat
  | invalidSelection
  | lineLimitExceeded
  | valueError
  deriving DecidableEq

/-- Python `"\n".join(lines)`. -/
def joinLines : List (List Char) → List Char
  | [] => []
  | [l] => l
  | l :: ls => l ++ '\n' :: joinLines ls

/-- The part of `Lyrics.select_lines` that runs after the selection string
has been parsed into the two integers `a` (start) and `b` (end): the three
range checks in source order, the inclusive 1-based slice `lines[a-1 : b]`,
the removal of exactly-empty lines, the 4-line check, and the final
join-and-strip.  Both integers are nonnegative because they come from
digit runs, so `Nat` is faithful (`a ≤ 0` means `a = 0`). -/
def afterParse (lines : List (List Char)) (a b : Nat) : Except SelectError (List Char) :=
  if a ≥ b then .error .invalidSelection
  else if a ≤ 0 then .error .invalidSelection
  else if b > lines.length then .error .invalidSelection
  else if (((lines.drop (a - 1)).take (b - (a - 1))).filter
      (fun l => !l.isEmpty)).length ≠ 4 then
    .error .lineLimitExceeded
  else
    .ok (pyStrip (joinLines (((lines.drop (a - 1)).take (b - (a - 1))).filter
      (fun l => !l.isEmpty))))

/-- `Lyrics.select_lines` on character lists: split the lyrics on newline,
test the `^\d+-\d+$` pattern, split the selection on every hyphen and
convert each piece with `int` (a piece count other than two raises
`InvalidFormatError`; a conversion failure would be a `ValueError`), then
validate and slice via `afterParse`. -/
def selectLinesCore (lyrics selection : List Char) : Except SelectError (List Char) :=
  if matchStartEnd selection then
    match pyIntList? (splitOnChar '-' selection) with
    | some [a, b] => afterParse (splitOnChar '\n' lyrics) a b
    | some _ => .error .invalidFormat
    | none => .error .valueError
  else .error .invalidFormat

/-- `Lyrics.select_lines` at the `String` interface. -/
def select_lines (lyrics selection : String) : Except SelectError String :=
  (selectLinesCore lyrics.toList selection.toList).map String.mk

/-- The parsing phase of `select_lines` in isolation: the two integers the
selection string yields when it passes the format test and both `int`
conversions succeed. -/
def parseSelection (selection : List Char) : Option (Nat × Nat) :=
  if matchStartEnd selection then
    match pyIntList? (splitOnChar '-' selection) with
    | some [a, b] => some (a, b)
    | _ => none
  else none

/-- The list of non-empty lines of the selected slice — the lines a
successful `select_lines` call joins into the quatrain. -/
def selectedLines (lyrics selection : List Char) : List (List Char) :=
  match parseSelection selection with
  | some (a, b) =>
      (((splitOnChar '\n' lyrics).drop (a - 1)).take (b - (a - 1))).filter
        (fun l => !l.isEmpty)
  | none => []

/-- The sentinel test of the manual-entry loop:
Python `line.lower().strip() == 'end'` (`str.lower` modelled on ASCII). -/
def isEndSentinel (l : List Char) : Bool :=
  pyStrip (l.map Char.toLower) == String.toList ("end")

/-- The `while True` input loop of `Lyrics.get_manual_lyrics`: consume input
lines until the first sentinel, collecting every earlier line verbatim.
The `[]` case is the console stream running dry, where the Python loop
would block waiting for more input; the theorems below therefore assume a
sentinel occurs in the input. -/
def collectLines : List (List Char) → List (List Char)
  | [] => []
  | line :: rest =>
    if isEndSentinel line then [] else line :: collectLines rest

/-- `Lyrics.get_manual_lyrics`, with the console modelled as a finite list
of input lines.  Echo printing is ignored; the return value is the
placeholder when nothing was collected, otherwise the newline-join of the
collected lines. -/
def get_manual_lyrics (inputs : List (List Char)) : List Char :=
  if (collectLines inputs).isEmpty then String.toList ("No lyrics available")
  else joinLines (collectLines inputs)

/-- A search result of the LRClib API: the fields `lyrics.py` reads. -/
structure SearchResult where
  id : Nat
  instrumental : Bool

/-- The LRClib API as the pure capability the specification describes:
`search_lyrics` returns an ordered (possibly empty) result list and
`get_lyrics_by_id` returns the `plain_lyrics` field of the fetched record,
`none` when that field is absent. -/
structure LrcLibAPI where
  search_lyrics : List Char → List Char → List SearchResult
  get_lyrics_by_id : Nat → Option (List Char)

/-- `BeatPrints.spotify.TrackMetadata`, restricted to the fields read here. -/
structure TrackMetadata where
  name : List Char
  artist : List Char

/-- `Lyrics.check_instrumental`: search, then read `results[0].instrumental`.
There is no emptiness guard, so an empty result list makes the subscript
raise `IndexError`, modelled as `none`. -/
def check_instrumental (api : LrcLibAPI) (metadata : TrackMetadata) : Option Bool :=
  ((api.search_lyrics metadata.name metadata.artist).head?).map SearchResult.instrumental

/-- `Lyrics.get_lyrics`.  `none` models an uncaught exception.  Two notes:
* the source calls `check_instrumental`, which performs its own search with
  the same arguments; the capability being a pure function, both searches
  agree, so the `none` outcome of `check_instrumental` is unreachable here;
* the instrumental branch executes `return i.DESC`, but `i` is a local
  variable of `get_lyrics` (the later `for i, line in enumerate(...)` loop
  assigns it), still unbound at that point, so the branch raises
  `UnboundLocalError` instead of returning the placeholder constant. -/
def get_lyrics (api : LrcLibAPI) (inputs : List (List Char))
    (metadata : TrackMetadata) : Option (List Char) :=
  match api.search_lyrics metadata.name metadata.artist with
  | [] => some (get_manual_lyrics inputs)
  | r0 :: _ =>
    match check_instrumental api metadata with
    | none => none
    | some true => none
    | some false =>
      match api.get_lyrics_by_id r0.id with
      | none => some (get_manual_lyrics inputs)
      | some lyr =>
          if lyr.isEmpty then some (get_manual_lyrics inputs) else some lyr

/-- Fixture: a metadata value. -/
def mdSong : TrackMetadata :=
  ⟨String.toList ("Song"), String.toList ("Artist")⟩

/-- Fixture: an API whose search finds one instrumental-flagged result and
whose lyrics fetch finds nothing. -/
def apiInstr : LrcLibAPI :=
  ⟨fun _ _ => [⟨0, true⟩], fun _ => none⟩

/-- Fixture: an API whose search finds one non-instrumental result and whose
lyrics fetch finds nothing. -/
def apiNoLyr : LrcLibAPI :=
  ⟨fun _ _ => [⟨0, false⟩], fun _ => none⟩

/-- Fixture: an API whose search finds nothing. -/
def apiEmpty : LrcLibAPI :=
  ⟨fun _ _ => [], fun _ => none⟩

/-- Fixture: console input entering one line `hi`, then the sentinel. -/
def inputsHi : List (List Char) :=
  [String.toList ("hi"), String.toList ("end")]

/-- Fixture: console input entering the sentinel immediately. -/
def inputsEndOnly : List (List Char) :=
  [String.toList ("end")]

/-! Helper lemmas about the string primitives. -/

theorem splitOnChar_ne_nil (sep : Char) (cs : List Char) : splitOnChar sep cs ≠ [] := by
  cases cs with
  | nil => simp [splitOnChar]
  | cons c rest =>
    simp only [splitOnChar]
    split
    · simp
    · split <;> simp

theorem splitOnChar_cons_self (sep : Char) (xs : List Char) :
    splitOnChar sep (sep :: xs) = [] :: splitOnChar sep xs := by
  simp [splitOnChar]

theorem splitOnChar_append_left (sep : Char) :
    ∀ (l xs h : List Char) (t : List (List Char)), sep ∉ l →
      splitOnChar sep xs = h :: t → splitOnChar sep (l ++ xs) = (l ++ h) :: t
  | [], xs, h, t, _, hx => by simpa using hx
  | c :: l, xs, h, t, hmem, hx => by
    have hcs : ¬(c = sep) := fun hc => hmem (hc ▸ List.mem_cons_self c l)
    have ih := splitOnChar_append_left sep l xs h t
      (fun hm => hmem (List.mem_cons_of_mem c hm)) hx
    have ih2 : splitOnChar sep (l.append xs) = (l ++ h) :: t := ih
    simp only [List.cons_append, splitOnChar, if_neg hcs, ih, ih2]

theorem splitOnChar_no_sep (sep : Char) :
    ∀ (l : List Char), sep ∉ l → splitOnChar sep l = [l]
  | [], _ => rfl
  | c :: l, hmem => by
    have hcs : ¬(c = sep) := fun hc => hmem (hc ▸ List.mem_cons_self c l)
    have ih := splitOnChar_no_sep sep l (fun hm => hmem (List.mem_cons_of_mem c hm))
    simp only [splitOnChar, if_neg hcs, ih]

theorem not_mem_of_mem_splitOnChar (sep : Char) :
    ∀ (cs piece : List Char), piece ∈ splitOnChar sep cs → sep ∉ piece
  | [], piece, hp => by
    simp only [splitOnChar, List.mem_singleton] at hp
    simp [hp]
  | c :: rest, piece, hp => by
    by_cases hc : c = sep
    · rw [hc, splitOnChar_cons_self] at hp
      rcases List.mem_cons.mp hp with rfl | hp'
      · simp
      · exact not_mem_of_mem_splitOnChar sep rest piece hp'
    · cases hr : splitOnChar sep rest with
      | nil => exact absurd hr (splitOnChar_ne_nil sep rest)
      | cons h t =>
        rw [show splitOnChar sep (c :: rest) = (c :: h) :: t from by
              simp only [splitOnChar, if_neg hc, hr]] at hp
        rcases List.mem_cons.mp hp with rfl | hp'
        · intro hmem
          rcases List.mem_cons.mp hmem with rfl | hmem'
          · exact hc rfl
          · exact (not_mem_of_mem_splitOnChar sep rest h
              (hr ▸ List.mem_cons_self h t)) hmem'
        · exact not_mem_of_mem_splitOnChar sep rest piece
            (hr ▸ List.mem_cons_of_mem h hp')

theorem dropWhile_append_of_exists (p : Char → Bool) :
    ∀ (l xs : List Char), (∃ c ∈ l, p c = false) →
      List.dropWhile p (l ++ xs) = List.dropWhile p l ++ xs
  | [], _, h => by simp at h
  | a :: l, xs, h => by
    cases hpa : p a with
    | false => simp [List.dropWhile_cons, hpa]
    | true =>
      have h' : ∃ c ∈ l, p c = false := by
        rcases h with ⟨c, hc, hpc⟩
        rcases List.mem_cons.mp hc with rfl | hc'
        · rw [hpa] at hpc; cases hpc
        · exact ⟨c, hc', hpc⟩
      simp [List.dropWhile_cons, hpa, dropWhile_append_of_exists p l xs h']

theorem dropWhile_ne_nil_of_exists (p : Char → Bool) (l : List Char)
    (h : ∃ c ∈ l, p c = false) : List.dropWhile p l ≠ [] := by
  intro hnil
  rw [List.dropWhile_eq_nil_iff] at hnil
  rcases h with ⟨c, hc, hpc⟩
  rw [hnil c hc] at hpc
  cases hpc

theorem mem_of_mem_dropWhile (p : Char → Bool) (l : List Char) (x : Char)
    (h : x ∈ List.dropWhile p l) : x ∈ l :=
  (List.dropWhile_sublist p).subset h

theorem dropWhile_eq_self_of_all (p : Char → Bool) :
    ∀ (l : List Char), (∀ c ∈ l, p c = false) → List.dropWhile p l = l
  | [], _ => rfl
  | a :: l, h => by
    simp [List.dropWhile_cons, h a (List.mem_cons_self a l)]

theorem pyStrip_eq_self (l : List Char) (h : ∀ c ∈ l, pyIsSpace c = false) :
    pyStrip l = l := by
  unfold pyStrip
  rw [dropWhile_eq_self_of_all _ l h,
    dropWhile_eq_self_of_all _ l.reverse (fun c hc => h c (List.mem_reverse.mp hc)),
    List.reverse_reverse]

theorem isDigit_not_space (c : Char) (h : c.isDigit = true) : pyIsSpace c = false := by
  cases hs : pyIsSpace c
  · rfl
  · exfalso
    simp only [pyIsSpace, Bool.or_eq_true, beq_iff_eq] at hs
    rcases hs with ((((h1 | h1) | h1) | h1) | h1) | h1 <;> subst h1 <;>
      exact absurd h (by decide)

theorem pyInt_digits (l : List Char) (hne : l ≠ [])
    (hdig : ∀ c ∈ l, c.isDigit = true) : pyInt? l = some (digitsVal l) := by
  have hstrip : pyStrip l = l :=
    pyStrip_eq_self l (fun c hc => isDigit_not_space c (hdig c hc))
  unfold pyInt?
  rw [hstrip, if_pos]
  simp [List.isEmpty_eq_false.mpr hne, List.all_eq_true.mpr hdig]

theorem pyStrip_digits_newline (l : List Char) (hne : l ≠ [])
    (hdig : ∀ c ∈ l, c.isDigit = true) : pyStrip (l ++ ['\n']) = l := by
  cases l with
  | nil => exact absurd rfl hne
  | cons d l' =>
    have hd : pyIsSpace d = false :=
      isDigit_not_space d (hdig d (List.mem_cons_self d l'))
    unfold pyStrip
    rw [List.cons_append, List.dropWhile_cons, if_neg (by simp [hd]),
      List.reverse_cons, List.reverse_append]
    simp only [List.reverse_cons, List.reverse_nil, List.nil_append,
      List.cons_append, List.singleton_append]
    rw [List.dropWhile_cons, if_pos (by decide),
      dropWhile_eq_self_of_all _ (l'.reverse ++ [d]) (fun c hc => by
        rcases List.mem_append.mp hc with hc' | hc'
        · exact isDigit_not_space c (hdig c (List.mem_cons_of_mem d (List.mem_reverse.mp hc')))
        · rw [List.mem_singleton.mp hc']; exact hd)]
    simp

/-! Parsing facts: a selection string that passes the regex test always
splits into exactly two pieces, both accepted by `int`. -/

theorem match_shape (ds1 ds2 tl : List Char)
    (hds1 : ∀ c ∈ ds1, c.isDigit = true) (hds2 : ∀ c ∈ ds2, c.isDigit = true)
    (hne1 : ds1 ≠ []) (hne2 : ds2 ≠ [])
    (htl : tl = [] ∨ tl = ['\n']) :
    splitOnChar '-' (ds1 ++ '-' :: (ds2 ++ tl)) = [ds1, ds2 ++ tl] ∧
    pyInt? ds1 = some (digitsVal ds1) ∧
    pyInt? (ds2 ++ tl) = some (digitsVal ds2) := by
  have hmem1 : '-' ∉ ds1 := by
    intro hm
    exact absurd (hds1 _ hm) (by decide)
  have hmem2 : '-' ∉ ds2 ++ tl := by
    intro hm
    rcases List.mem_append.mp hm with hm' | hm'
    · exact absurd (hds2 _ hm') (by decide)
    · rcases htl with ht | ht <;> rw [ht] at hm' <;> simp at hm'
  refine ⟨?_, pyInt_digits _ hne1 hds1, ?_⟩
  · have h1 : splitOnChar '-' (ds2 ++ tl) = [ds2 ++ tl] :=
      splitOnChar_no_sep '-' _ hmem2
    have h2 : splitOnChar '-' ('-' :: (ds2 ++ tl)) = [] :: [ds2 ++ tl] := by
      rw [splitOnChar_cons_self, h1]
    have h3 := splitOnChar_append_left '-' ds1 ('-' :: (ds2 ++ tl)) [] [ds2 ++ tl]
      hmem1 h2
    rw [List.append_nil] at h3
    exact h3
  · rcases htl with ht | ht
    · rw [ht, List.append_nil]
      exact pyInt_digits _ hne2 hds2
    · rw [ht]
      have hstrip := pyStrip_digits_newline ds2 hne2 hds2
      unfold pyInt?
      rw [hstrip, if_pos]
      rw [Bool.and_eq_true]
      exact ⟨by rw [Bool.not_eq_true', List.isEmpty_eq_false]; exact hne2,
        List.all_eq_true.mpr hds2⟩

theorem split_hyphen_of_match (sel : List Char) (h : matchStartEnd sel = true) :
    ∃ ds1 rest2 : List Char,
      splitOnChar '-' sel = [ds1, rest2] ∧
      pyInt? ds1 = some (digitsVal ds1) ∧
      ∃ v2 : Nat, pyInt? rest2 = some v2 := by
  unfold matchStartEnd at h
  split at h
  case _ rest2 heq =>
    rw [Bool.and_eq_true, Bool.and_eq_true, Bool.or_eq_true] at h
    obtain ⟨⟨hne1, hne2⟩, htail⟩ := h
    rw [Bool.not_eq_true', List.isEmpty_eq_false] at hne1 hne2
    have htail' : rest2.dropWhile Char.isDigit = [] ∨
        rest2.dropWhile Char.isDigit = ['\n'] := by
      rcases htail with ht | ht
      · exact Or.inl (List.isEmpty_iff.mp ht)
      · exact Or.inr (beq_iff_eq.mp ht)
    have hsel : sel = sel.takeWhile Char.isDigit ++ '-' :: rest2 := by
      conv_lhs => rw [← List.takeWhile_append_dropWhile Char.isDigit sel, heq]
    have hrest2 : rest2 =
        rest2.takeWhile Char.isDigit ++ rest2.dropWhile Char.isDigit :=
      (List.takeWhile_append_dropWhile _ _).symm
    obtain ⟨e1, e2, e3⟩ := match_shape (sel.takeWhile Char.isDigit)
      (rest2.takeWhile Char.isDigit) (rest2.dropWhile Char.isDigit)
      (fun c hc => List.mem_takeWhile_imp hc)
      (fun c hc => List.mem_takeWhile_imp hc) hne1 hne2 htail'
    rw [← hrest2] at e1 e3
    rw [← hsel] at e1
    exact ⟨sel.takeWhile Char.isDigit, rest2, e1, e2,
      digitsVal (rest2.takeWhile Char.isDigit), e3⟩
  case _ => simp at h

theorem intList_of_match (sel : List Char) (h : matchStartEnd sel = true) :
    ∃ a b : Nat, pyIntList? (splitOnChar '-' sel) = some [a, b] := by
  obtain ⟨ds1, rest2, hsplit, hint1, v2, hint2⟩ := split_hyphen_of_match sel h
  exact ⟨digitsVal ds1, v2, by rw [hsplit]; simp [pyIntList?, hint1, hint2]⟩

theorem parseSelection_isSome_of_match (sel : List Char)
    (h : matchStartEnd sel = true) : ∃ a b : Nat, parseSelection sel = some (a, b) := by
  obtain ⟨a, b, hint⟩ := intList_of_match sel h
  exact ⟨a, b, by simp [parseSelection, h, hint]⟩

/-! Bridging lemmas between `select_lines`, its core, and `afterParse`. -/

theorem selectLinesCore_parsed (lyrics sel : List Char) (a b : Nat)
    (h : parseSelection sel = some (a, b)) :
    selectLinesCore lyrics sel = afterParse (splitOnChar '\n' lyrics) a b := by
  by_cases hm : matchStartEnd sel
  · rcases hp : pyIntList? (splitOnChar '-' sel) with _ | l
    · simp [parseSelection, hm, hp] at h
    · rcases l with _ | ⟨x, _ | ⟨y, _ | ⟨z, t⟩⟩⟩
      · simp [parseSelection, hm, hp] at h
      · simp [parseSelection, hm, hp] at h
      · simp only [parseSelection, if_pos hm, hp, Option.some.injEq,
          Prod.mk.injEq] at h
        obtain ⟨rfl, rfl⟩ := h
        simp [selectLinesCore, hm, hp]
      · simp [parseSelection, hm, hp] at h
  · simp [parseSelection, hm] at h

theorem afterParse_error_classes (lines : List (List Char)) (a b : Nat) :
    afterParse lines a b = .error .invalidSelection ∨
    afterParse lines a b = .error .lineLimitExceeded ∨
    ∃ out, afterParse lines a b = .ok out := by
  unfold afterParse
  split
  · exact Or.inl rfl
  · split
    · exact Or.inl rfl
    · split
      · exact Or.inl rfl
      · split
        · exact Or.inr (Or.inl rfl)
        · exact Or.inr (Or.inr ⟨_, rfl⟩)

theorem select_lines_error_iff (lyrics selection : String) (e : SelectError) :
    select_lines lyrics selection = .error e ↔
      selectLinesCore lyrics.toList selection.toList = .error e := by
  unfold select_lines
  cases selectLinesCore lyrics.toList selection.toList <;> simp [Except.map]

theorem core_of_select_lines_ok (lyrics selection out : String)
    (h : select_lines lyrics selection = .ok out) :
    selectLinesCore lyrics.toList selection.toList = .ok out.toList := by
  unfold select_lines at h
  cases hc : selectLinesCore lyrics.toList selection.toList with
  | error e => rw [hc] at h; simp [Except.map] at h
  | ok cs =>
    rw [hc] at h
    simp only [Except.map, Except.ok.injEq] at h
    rw [← h]
    rfl

/-! Claim theorems for the line selector. -/

/-- Claim C1: for every lyrics string and every selection that passes the
format check and the range validation, if the inclusive 1-based slice
[a, b] of the lyrics lines contains exactly 4 non-empty lines, then
`select_lines` returns exactly those 4 lines joined by newline, with
leading and trailing whitespace trimmed from the joined result only. -/
theorem select_lines_valid_range_ok (lyrics selection : String) (a b : Nat)
    (hp : parseSelection selection.toList = some (a, b))
    (hab : a < b) (ha : 1 ≤ a)
    (hb : b ≤ (splitOnChar '\n' lyrics.toList).length)
    (hlen : ((((splitOnChar '\n' lyrics.toList).drop (a - 1)).take (b - (a - 1))).filter
      (fun l => !l.isEmpty)).length = 4) :
    select_lines lyrics selection =
      .ok (String.mk (pyStrip (joinLines
        ((((splitOnChar '\n' lyrics.toList).drop (a - 1)).take (b - (a - 1))).filter
          (fun l => !l.isEmpty))))) := by
  have hcore := selectLinesCore_parsed lyrics.toList selection.toList a b hp
  unfold select_lines
  rw [hcore]
  unfold afterParse
  rw [if_neg (by omega), if_neg (by omega), if_neg (by omega), if_neg (by omega)]
  rfl

/-- Witness for C1: the spec scenario — lyrics "A\nB\nC\nD" with the
selection "1-4" yield exactly "A\nB\nC\nD". -/
theorem select_lines_valid_range_ok_w :
    select_lines ("A\nB\nC\nD") ("1-4") = .ok ("A\nB\nC\nD") :=
  (select_lines_valid_range_ok ("A\nB\nC\nD") ("1-4") 1 4 (by decide) (by decide)
    (by decide) (by decide) (by decide)).trans (by rfl)

/-- Claim C4: once the selection parses to (a, b), `select_lines` raises
`InvalidSelectionError` exactly when a ≥ b, a ≤ 0, or b exceeds the line
count; the checks run in that source order (a ≥ b first, then a ≤ 0, then
b > N), each raising the same single error, so at most one error is raised
per call. -/
theorem select_lines_invalid_selection_iff (lyrics selection : String) (a b : Nat)
    (hp : parseSelection selection.toList = some (a, b)) :
    select_lines lyrics selection = .error .invalidSelection ↔
      (a ≥ b ∨ a ≤ 0 ∨ b > (splitOnChar '\n' lyrics.toList).length) := by
  rw [select_lines_error_iff,
    selectLinesCore_parsed lyrics.toList selection.toList a b hp]
  unfold afterParse
  constructor
  · intro h
    split at h
    · exact Or.inl (by assumption)
    · split at h
      · exact Or.inr (Or.inl (by assumption))
      · split at h
        · exact Or.inr (Or.inr (by assumption))
        · split at h <;> simp at h
  · intro hor
    by_cases h1 : a ≥ b
    · rw [if_pos h1]
    · rw [if_neg h1]
      by_cases h2 : a ≤ 0
      · rw [if_pos h2]
      · rw [if_neg h2]
        have h3 : b > (splitOnChar '\n' lyrics.toList).length := by
          rcases hor with h | h | h
          · omega
          · omega
          · exact h
        rw [if_pos h3]

/-- Witness for C4: the spec scenario selection "4-2" (start ≥ end) raises
`InvalidSelectionError`. -/
theorem select_lines_invalid_selection_iff_w :
    select_lines ("A\nB\nC\nD") ("4-2") = .error .invalidSelection :=
  (select_lines_invalid_selection_iff ("A\nB\nC\nD") ("4-2") 4 2
    (by decide)).mpr (Or.inl (by decide))

/-- Counterexample to claim C5 as stated: the selection "1-4\n" is not two
integers separated by a single hyphen with no surrounding whitespace (it
fails the spec format), yet `select_lines` does not raise
`InvalidFormatError` on it — Python re `$` matches before the trailing
newline, so the call succeeds. -/
theorem select_lines_format_cex :
    specStrictFormat (String.toList ("1-4\n")) = false ∧
    select_lines ("A\nB\nC\nD") ("1-4\n") = .ok ("A\nB\nC\nD") :=
  ⟨by decide, by rfl⟩

/-- Amended claim C5: `select_lines` raises `InvalidFormatError` exactly for
the selection strings rejected by the regex `^\d+-\d+$` under Python
semantics, where `$` also accepts one trailing newline (`matchStartEnd`);
every rejected string raises it, and no accepted string does. -/
theorem select_lines_invalid_format_iff (lyrics selection : String) :
    select_lines lyrics selection = .error .invalidFormat ↔
      matchStartEnd selection.toList = false := by
  rw [select_lines_error_iff]
  cases hm : matchStartEnd selection.toList
  · have hm' : matchStartEnd selection.data = false := hm
    simp [selectLinesCore, hm, hm']
  · constructor
    · intro h
      exfalso
      obtain ⟨a, b, hp⟩ := parseSelection_isSome_of_match selection.toList hm
      rw [selectLinesCore_parsed lyrics.toList selection.toList a b hp] at h
      rcases afterParse_error_classes (splitOnChar '\n' lyrics.toList) a b with
        he | he | ⟨out, he⟩ <;> rw [he] at h <;> simp at h
    · intro h
      simp at h

/-- Claim C6: once format and range validation pass, `select_lines` takes
the inclusive 1-based slice, discards exactly the lines equal to the empty
string (the filter tests emptiness, so whitespace-only lines are kept), and
raises `LineLimitExceededError` if and only if the remaining count is not 4. -/
theorem select_lines_line_limit_iff (lyrics selection : String) (a b : Nat)
    (hp : parseSelection selection.toList = some (a, b))
    (hab : a < b) (ha : 1 ≤ a)
    (hb : b ≤ (splitOnChar '\n' lyrics.toList).length) :
    select_lines lyrics selection = .error .lineLimitExceeded ↔
      ((((splitOnChar '\n' lyrics.toList).drop (a - 1)).take (b - (a - 1))).filter
        (fun l => !l.isEmpty)).length ≠ 4 := by
  rw [select_lines_error_iff,
    selectLinesCore_parsed lyrics.toList selection.toList a b hp]
  unfold afterParse
  rw [if_neg (by omega), if_neg (by omega), if_neg (by omega)]
  split
  · exact iff_of_true rfl (by assumption)
  · exact iff_of_false (by simp) (by assumption)

/-- Witness for C6: the spec scenario — lyrics "A\nB\n\nC\nD\nE" with
selection "1-6" has 5 non-empty lines in range, so the call raises
`LineLimitExceededError`. -/
theorem select_lines_line_limit_iff_w :
    select_lines ("A\nB\n\nC\nD\nE") ("1-6") = .error .lineLimitExceeded :=
  (select_lines_line_limit_iff ("A\nB\n\nC\nD\nE") ("1-6") 1 6 (by decide)
    (by decide) (by decide) (by decide)).mpr (by decide)

/-- Claim C9: `select_lines` is deterministic — two calls on identical
inputs yield the identical outcome, value or error; the embedding reads
nothing but its two arguments, matching the source, which touches no
mutable state. -/
theorem select_lines_deterministic (lyrics selection : String)
    (o1 o2 : Except SelectError String)
    (h1 : select_lines lyrics selection = o1)
    (h2 : select_lines lyrics selection = o2) : o1 = o2 :=
  h1.symm.trans h2

/-- Witness for C9: two calls on the scenario input agree. -/
theorem select_lines_deterministic_w :
    select_lines ("A\nB\nC\nD") ("1-4") = select_lines ("A\nB\nC\nD") ("1-4") :=
  select_lines_deterministic ("A\nB\nC\nD") ("1-4") _ _ rfl rfl

/-! Claim theorems for the acquisition chain. -/

theorem collectLines_stops_at_sentinel (sent : List Char) (rest : List (List Char))
    (hsent : isEndSentinel sent = true) :
    ∀ pre : List (List Char), (∀ l ∈ pre, isEndSentinel l = false) →
      collectLines (pre ++ sent :: rest) = pre
  | [], _ => by simp [collectLines, hsent]
  | l :: pre, hpre => by
    have h1 : isEndSentinel l = false := hpre l (List.mem_cons_self l pre)
    have ih := collectLines_stops_at_sentinel sent rest hsent pre
      (fun x hx => hpre x (List.mem_cons_of_mem l hx))
    simp [collectLines, h1, ih]

/-- Claim C8: the manual collector stops at the first input line whose
lowercased, trimmed content equals the sentinel "end", discarding that line
and everything after it; if no lines were collected it returns the literal
"No lyrics available", and otherwise exactly the collected lines joined
with newline — any line content, including empty lines, is accepted. -/
theorem get_manual_lyrics_sentinel (pre : List (List Char)) (sent : List Char)
    (rest : List (List Char))
    (hpre : ∀ l ∈ pre, isEndSentinel l = false)
    (hsent : isEndSentinel sent = true) :
    get_manual_lyrics (pre ++ sent :: rest) =
      (if pre.isEmpty then String.toList ("No lyrics available")
       else joinLines pre) := by
  unfold get_manual_lyrics
  rw [collectLines_stops_at_sentinel sent rest hsent pre hpre]

/-- Witness for C8: entering only "end" returns "No lyrics available". -/
theorem get_manual_lyrics_sentinel_w :
    get_manual_lyrics inputsEndOnly = String.toList ("No lyrics available") :=
  (get_manual_lyrics_sentinel [] (String.toList ("end")) [] (by simp)
    (by decide)).trans (by rfl)

/-- Claim C3 (code bug): when the search result list is non-empty and its
first result is flagged instrumental, `get_lyrics` does not return the
instrumental placeholder: the branch `return i.DESC` reads `i`, which is a
local variable of `get_lyrics` (the later `for i, line in enumerate(...)`
loop assigns it) still unbound at that point, so the call raises
`UnboundLocalError` and aborts. -/
theorem get_lyrics_instrumental_raises (api : LrcLibAPI) (inputs : List (List Char))
    (md : TrackMetadata) (r0 : SearchResult) (rest : List SearchResult)
    (hs : api.search_lyrics md.name md.artist = r0 :: rest)
    (hi : r0.instrumental = true) :
    get_lyrics api inputs md = none := by
  unfold get_lyrics check_instrumental
  rw [hs]
  simp [hi]

/-- Witness for C3: a concrete search with one instrumental result makes
`get_lyrics` abort. -/
theorem get_lyrics_instrumental_raises_w :
    get_lyrics apiInstr inputsHi mdSong = none :=
  get_lyrics_instrumental_raises apiInstr inputsHi mdSong ⟨0, true⟩ [] rfl rfl

/-- Counterexample to claim C7 as stated: the search is non-empty and the
lyrics fetch for the first result is absent, so the claim promises the
manual collector result — but the first result is flagged instrumental, and
the call aborts in the instrumental branch instead of returning it. -/
theorem get_lyrics_fallback_cex :
    apiInstr.search_lyrics mdSong.name mdSong.artist = [⟨0, true⟩] ∧
    apiInstr.get_lyrics_by_id 0 = none ∧
    get_lyrics apiInstr inputsHi mdSong = none ∧
    get_lyrics apiInstr inputsHi mdSong ≠ some (get_manual_lyrics inputsHi) := by
  refine ⟨rfl, rfl, rfl, ?_⟩
  intro h
  rw [show get_lyrics apiInstr inputsHi mdSong = none from rfl] at h
  exact Option.noConfusion h

/-- Amended claim C7: if the search returns no results, `get_lyrics`
returns the manual collector result verbatim; and if the search returns
results whose first result is not flagged instrumental while the fetched
plain-text lyrics are absent or empty, it likewise returns the manual
collector result verbatim.  (The original claim omitted the
not-instrumental condition on the second case.) -/
theorem get_lyrics_manual_fallback :
    (∀ (api : LrcLibAPI) (inputs : List (List Char)) (md : TrackMetadata),
      api.search_lyrics md.name md.artist = [] →
      get_lyrics api inputs md = some (get_manual_lyrics inputs)) ∧
    (∀ (api : LrcLibAPI) (inputs : List (List Char)) (md : TrackMetadata)
      (r0 : SearchResult) (rest : List SearchResult),
      api.search_lyrics md.name md.artist = r0 :: rest →
      r0.instrumental = false →
      (api.get_lyrics_by_id r0.id = none ∨ api.get_lyrics_by_id r0.id = some []) →
      get_lyrics api inputs md = some (get_manual_lyrics inputs)) := by
  constructor
  · intro api inputs md hs
    unfold get_lyrics
    rw [hs]
  · intro api inputs md r0 rest hs hi hfetch
    unfold get_lyrics check_instrumental
    rw [hs]
    rcases hfetch with hf | hf <;> simp [hi, hf]

/-- Witness for C7 (amended): both fallback paths on concrete inputs. -/
theorem get_lyrics_manual_fallback_w :
    get_lyrics apiEmpty inputsEndOnly mdSong = some (get_manual_lyrics inputsEndOnly) ∧
    get_lyrics apiNoLyr inputsHi mdSong = some (get_manual_lyrics inputsHi) :=
  ⟨get_lyrics_manual_fallback.1 apiEmpty inputsEndOnly mdSong rfl,
   get_lyrics_manual_fallback.2 apiNoLyr inputsHi mdSong ⟨0, false⟩ [] rfl rfl
     (Or.inl rfl)⟩

/-- Claim C10: on an empty search result list `check_instrumental` itself
aborts on the unguarded subscript `results[0]` (an `IndexError`, not a
Boolean), while `get_lyrics` checks for the empty result list before ever
calling it and returns the manual collector result instead — the guard
lives only in `get_lyrics`. -/
theorem check_instrumental_empty_unguarded :
    (∀ (api : LrcLibAPI) (md : TrackMetadata),
      api.search_lyrics md.name md.artist = [] → check_instrumental api md = none) ∧
    (∀ (api : LrcLibAPI) (inputs : List (List Char)) (md : TrackMetadata),
      api.search_lyrics md.name md.artist = [] →
      get_lyrics api inputs md = some (get_manual_lyrics inputs)) := by
  constructor
  · intro api md hs
    unfold check_instrumental
    rw [hs]
    rfl
  · intro api inputs md hs
    unfold get_lyrics
    rw [hs]

/-- Witness for C10: the empty-search API crashes `check_instrumental` but
not `get_lyrics`. -/
theorem check_instrumental_empty_unguarded_w :
    check_instrumental apiEmpty mdSong = none ∧
    get_lyrics apiEmpty inputsHi mdSong = some (get_manual_lyrics inputsHi) :=
  ⟨check_instrumental_empty_unguarded.1 apiEmpty mdSong rfl,
   check_instrumental_empty_unguarded.2 apiEmpty inputsHi mdSong rfl⟩

/-! Claim C2: shape of a successful result. -/

/-- Counterexample to claim C2 as stated: lyrics " \nA\nB\nC" with
selection "1-4" succeed (the slice holds 4 non-empty lines, the first being
the whitespace-only " "), but the final strip of the joined quatrain
removes that whitespace-only edge line, so the returned string splits into
3 lines, not 4. -/
theorem select_lines_four_line_cex :
    select_lines (" \nA\nB\nC") ("1-4") = .ok ("A\nB\nC") ∧
    (splitOnChar '\n' (String.toList ("A\nB\nC"))).length ≠ 4 :=
  ⟨by rfl, by decide⟩

theorem selectLinesCore_ok_shape (lyrics selection out : List Char)
    (h : selectLinesCore lyrics selection = .ok out) :
    (selectedLines lyrics selection).length = 4 ∧
    out = pyStrip (joinLines (selectedLines lyrics selection)) := by
  by_cases hm : matchStartEnd selection
  · rcases hp : pyIntList? (splitOnChar '-' selection) with _ | l
    · simp [selectLinesCore, hm, hp] at h
    · rcases l with _ | ⟨x, _ | ⟨y, _ | ⟨z, t⟩⟩⟩
      · simp [selectLinesCore, hm, hp] at h
      · simp [selectLinesCore, hm, hp] at h
      · have hps : parseSelection selection = some (x, y) := by
          simp [parseSelection, hm, hp]
        have hsl : selectedLines lyrics selection =
            (((splitOnChar '\n' lyrics).drop (x - 1)).take (y - (x - 1))).filter
              (fun l => !l.isEmpty) := by
          simp [selectedLines, hps]
        simp only [selectLinesCore, if_pos hm, hp] at h
        unfold afterParse at h
        split at h
        · simp at h
        · split at h
          · simp at h
          · split at h
            · simp at h
            · split at h
              · simp at h
              · rw [hsl]
                have hlen : ¬(((((splitOnChar '\n' lyrics).drop (x - 1)).take
                    (y - (x - 1))).filter (fun l => !l.isEmpty)).length ≠ 4) := by
                  assumption
                refine ⟨by omega, ?_⟩
                simp only [Except.ok.injEq] at h
                exact h.symm
      · simp [selectLinesCore, hm, hp] at h
  · simp [selectLinesCore, hm] at h

theorem selectedLines_mem (lyrics selection l : List Char)
    (h : l ∈ selectedLines lyrics selection) : l ≠ [] ∧ '\n' ∉ l := by
  unfold selectedLines at h
  split at h
  · rw [List.mem_filter] at h
    obtain ⟨hmem, hne⟩ := h
    rw [Bool.not_eq_true', List.isEmpty_eq_false] at hne
    refine ⟨hne, ?_⟩
    have h1 : l ∈ splitOnChar '\n' lyrics :=
      List.drop_subset _ _ (List.take_subset _ _ hmem)
    exact not_mem_of_mem_splitOnChar '\n' lyrics l h1
  · simp at h

theorem strip_join_four (l1 l2 l3 l4 : List Char)
    (h1 : '\n' ∉ l1) (h2 : '\n' ∉ l2) (h3 : '\n' ∉ l3) (h4 : '\n' ∉ l4)
    (hw1 : ∃ c ∈ l1, pyIsSpace c = false)
    (hw4 : ∃ c ∈ l4, pyIsSpace c = false) :
    splitOnChar '\n' (pyStrip (joinLines [l1, l2, l3, l4])) =
      [l1.dropWhile pyIsSpace, l2, l3, (l4.reverse.dropWhile pyIsSpace).reverse] := by
  have hw4r : ∃ c ∈ l4.reverse, pyIsSpace c = false := by
    rcases hw4 with ⟨c, hc, hpc⟩
    exact ⟨c, List.mem_reverse.mpr hc, hpc⟩
  have hB : List.dropWhile pyIsSpace (joinLines [l1, l2, l3, l4]) =
      (l1.dropWhile pyIsSpace) ++ '\n' :: (l2 ++ '\n' :: (l3 ++ '\n' :: l4)) := by
    rw [show joinLines [l1, l2, l3, l4] =
      l1 ++ '\n' :: (l2 ++ '\n' :: (l3 ++ '\n' :: l4)) from rfl]
    exact dropWhile_append_of_exists pyIsSpace l1 _ hw1
  set d1 := l1.dropWhile pyIsSpace with hd1
  have hC : (d1 ++ '\n' :: (l2 ++ '\n' :: (l3 ++ '\n' :: l4))).reverse =
      l4.reverse ++ '\n' :: (l3.reverse ++ '\n' :: (l2.reverse ++ '\n' :: d1.reverse)) := by
    simp [List.reverse_append]
  have hD := dropWhile_append_of_exists pyIsSpace l4.reverse
    ('\n' :: (l3.reverse ++ '\n' :: (l2.reverse ++ '\n' :: d1.reverse))) hw4r
  set d4 := l4.reverse.dropWhile pyIsSpace with hd4
  have hE : (d4 ++ '\n' :: (l3.reverse ++ '\n' :: (l2.reverse ++ '\n' :: d1.reverse))).reverse =
      d1 ++ '\n' :: (l2 ++ '\n' :: (l3 ++ '\n' :: d4.reverse)) := by
    simp [List.reverse_append]
  have hF : pyStrip (joinLines [l1, l2, l3, l4]) =
      d1 ++ '\n' :: (l2 ++ '\n' :: (l3 ++ '\n' :: d4.reverse)) := by
    unfold pyStrip
    rw [hB, hC, hD, hE]
  have hnl4r : '\n' ∉ d4.reverse := by
    intro hm
    exact h4 (List.mem_reverse.mp (mem_of_mem_dropWhile _ _ _ (List.mem_reverse.mp hm)))
  have hnl1 : '\n' ∉ d1 := fun hm => h1 (mem_of_mem_dropWhile _ _ _ hm)
  have s4 : splitOnChar '\n' d4.reverse = [d4.reverse] :=
    splitOnChar_no_sep '\n' _ hnl4r
  have s4' : splitOnChar '\n' ('\n' :: d4.reverse) = [] :: [d4.reverse] := by
    rw [splitOnChar_cons_self, s4]
  have s3 : splitOnChar '\n' (l3 ++ '\n' :: d4.reverse) = [l3, d4.reverse] := by
    have := splitOnChar_append_left '\n' l3 ('\n' :: d4.reverse) [] [d4.reverse] h3 s4'
    rw [List.append_nil] at this
    exact this
  have s3' : splitOnChar '\n' ('\n' :: (l3 ++ '\n' :: d4.reverse)) =
      [] :: [l3, d4.reverse] := by
    rw [splitOnChar_cons_self, s3]
  have s2 : splitOnChar '\n' (l2 ++ '\n' :: (l3 ++ '\n' :: d4.reverse)) =
      [l2, l3, d4.reverse] := by
    have := splitOnChar_append_left '\n' l2 ('\n' :: (l3 ++ '\n' :: d4.reverse))
      [] [l3, d4.reverse] h2 s3'
    rw [List.append_nil] at this
    exact this
  have s2' : splitOnChar '\n' ('\n' :: (l2 ++ '\n' :: (l3 ++ '\n' :: d4.reverse))) =
      [] :: [l2, l3, d4.reverse] := by
    rw [splitOnChar_cons_self, s2]
  have s1 : splitOnChar '\n' (d1 ++ '\n' :: (l2 ++ '\n' :: (l3 ++ '\n' :: d4.reverse))) =
      [d1, l2, l3, d4.reverse] := by
    have := splitOnChar_append_left '\n' d1 ('\n' :: (l2 ++ '\n' :: (l3 ++ '\n' :: d4.reverse)))
      [] [l2, l3, d4.reverse] hnl1 s2'
    rw [List.append_nil] at this
    exact this
  rw [hF, s1]

/-- Amended claim C2: whenever `select_lines` returns successfully, the
returned string is the whitespace-stripped newline-join of exactly 4
non-empty lines (the non-empty lines of the selected slice); whenever the
first and last of those 4 lines each contain a non-whitespace character,
the returned string splits on newline into exactly 4 non-empty lines.  The
unconditional 4-line shape of the original claim fails, because the final
strip can delete whitespace-only edge lines (see the counterexample). -/
theorem select_lines_ok_shape (lyrics selection out : String)
    (h : select_lines lyrics selection = .ok out) :
    (selectedLines lyrics.toList selection.toList).length = 4 ∧
    (∀ l ∈ selectedLines lyrics.toList selection.toList, l ≠ [] ∧ '\n' ∉ l) ∧
    out.toList = pyStrip (joinLines (selectedLines lyrics.toList selection.toList)) ∧
    (((selectedLines lyrics.toList selection.toList).headI.any
        (fun c => !pyIsSpace c)) = true →
      ((selectedLines lyrics.toList selection.toList).getLastI.any
        (fun c => !pyIsSpace c)) = true →
      (splitOnChar '\n' out.toList).length = 4 ∧
        ∀ l ∈ splitOnChar '\n' out.toList, l ≠ []) := by
  have hcore := core_of_select_lines_ok lyrics selection out h
  obtain ⟨hlen, hout⟩ :=
    selectLinesCore_ok_shape lyrics.toList selection.toList out.toList hcore
  have hmem : ∀ l ∈ selectedLines lyrics.toList selection.toList, l ≠ [] ∧ '\n' ∉ l :=
    fun l hl => selectedLines_mem lyrics.toList selection.toList l hl
  refine ⟨hlen, hmem, hout, ?_⟩
  intro hh hl
  rcases hsl : selectedLines lyrics.toList selection.toList with
    _ | ⟨l1, _ | ⟨l2, _ | ⟨l3, _ | ⟨l4, _ | ⟨l5, ls⟩⟩⟩⟩⟩ <;>
    rw [hsl] at hlen <;> try simp at hlen
  rw [hsl] at hout hmem hh hl
  have hm1 := hmem l1 (by simp)
  have hm2 := hmem l2 (by simp)
  have hm3 := hmem l3 (by simp)
  have hm4 := hmem l4 (by simp)
  simp only [List.headI] at hh
  have hlast : List.getLastI [l1, l2, l3, l4] = l4 := rfl
  rw [hlast] at hl
  have hw1 : ∃ c ∈ l1, pyIsSpace c = false := by
    rcases List.any_eq_true.mp hh with ⟨c, hc, hpc⟩
    exact ⟨c, hc, by rwa [Bool.not_eq_true'] at hpc⟩
  have hw4 : ∃ c ∈ l4, pyIsSpace c = false := by
    rcases List.any_eq_true.mp hl with ⟨c, hc, hpc⟩
    exact ⟨c, hc, by rwa [Bool.not_eq_true'] at hpc⟩
  have hw4r : ∃ c ∈ l4.reverse, pyIsSpace c = false := by
    rcases hw4 with ⟨c, hc, hpc⟩
    exact ⟨c, List.mem_reverse.mpr hc, hpc⟩
  have hsplit := strip_join_four l1 l2 l3 l4 hm1.2 hm2.2 hm3.2 hm4.2 hw1 hw4
  rw [hout, hsplit]
  refine ⟨rfl, ?_⟩
  intro l hlmem
  have hd1 : l1.dropWhile pyIsSpace ≠ [] :=
    dropWhile_ne_nil_of_exists pyIsSpace l1 hw1
  have hd4 : (l4.reverse.dropWhile pyIsSpace).reverse ≠ [] := by
    intro hc
    rw [List.reverse_eq_nil_iff] at hc
    exact dropWhile_ne_nil_of_exists pyIsSpace l4.reverse hw4r hc
  simp only [List.mem_cons, List.not_mem_nil, or_false] at hlmem
  rcases hlmem with rfl | rfl | rfl | rfl
  · exact hd1
  · exact hm2.1
  · exact hm3.1
  · exact hd4

/-- Witness for C2 (amended): on the scenario input the returned string
splits into 4 non-empty lines. -/
theorem select_lines_ok_shape_w :
    (splitOnChar '\n' (String.toList ("A\nB\nC\nD"))).length = 4 ∧
    ∀ l ∈ splitOnChar '\n' (String.toList ("A\nB\nC\nD")), l ≠ [] :=
  (select_lines_ok_shape ("A\nB\nC\nD") ("1-4") ("A\nB\nC\nD")
    (by rfl)).2.2.2 (by decide) (by decide)
